import Mathlib

/-!
Verification of the guided epipolar matcher of the HEC_SFM repository
(src/TheiaSfM/src/theia/matching/guided_epipolar_matcher.h).

The repository contains only the header, which fixes the data model and the
private interface (Options, ImageGrid with AddFeature / GetClosestGridCenter /
GetFeaturesFromCell, EpilineGroup, Initialize, GroupEpipolarLines,
FindFeaturesNearEpipolarLines, FindEpipolarLineIntersection,
ComputeFundamentalMatrix, FindClosestCellAndKeypoints, FindKNearestNeighbors,
GetMatches).  The bodies of these functions are not in the repository, so they
are modelled from the specification (sections 4.1-4.7 of spec.md), as noted on
each definition.  Pixel coordinates, descriptor distances and thresholds are
embedded as exact rationals; the external descriptor-distance primitive is an
explicit function argument, as the spec treats it as an opaque collaborator.
-/

namespace Theia

/-- A 2D keypoint position in pixels (theia::Keypoint, reduced to the
position that the matcher reads). -/
structure Keypoint where
  x : ℚ
  y : ℚ
deriving DecidableEq

/-- A 3-vector over the rationals (Eigen::Vector3d in the source). -/
structure Vec3 where
  x : ℚ
  y : ℚ
  z : ℚ
deriving DecidableEq

/-- A 3x3 matrix over the rationals (Eigen::Matrix3d in the source). -/
structure Mat3 where
  m00 : ℚ
  m01 : ℚ
  m02 : ℚ
  m10 : ℚ
  m11 : ℚ
  m12 : ℚ
  m20 : ℚ
  m21 : ℚ
  m22 : ℚ
deriving DecidableEq

def Vec3.sub (a b : Vec3) : Vec3 :=
  ⟨a.x - b.x, a.y - b.y, a.z - b.z⟩

def Mat3.transpose (m : Mat3) : Mat3 :=
  ⟨m.m00, m.m10, m.m20, m.m01, m.m11, m.m21, m.m02, m.m12, m.m22⟩

def Mat3.mul (a b : Mat3) : Mat3 :=
  ⟨a.m00 * b.m00 + a.m01 * b.m10 + a.m02 * b.m20,
   a.m00 * b.m01 + a.m01 * b.m11 + a.m02 * b.m21,
   a.m00 * b.m02 + a.m01 * b.m12 + a.m02 * b.m22,
   a.m10 * b.m00 + a.m11 * b.m10 + a.m12 * b.m20,
   a.m10 * b.m01 + a.m11 * b.m11 + a.m12 * b.m21,
   a.m10 * b.m02 + a.m11 * b.m12 + a.m12 * b.m22,
   a.m20 * b.m00 + a.m21 * b.m10 + a.m22 * b.m20,
   a.m20 * b.m01 + a.m21 * b.m11 + a.m22 * b.m21,
   a.m20 * b.m02 + a.m21 * b.m12 + a.m22 * b.m22⟩

def Mat3.mulVec (m : Mat3) (v : Vec3) : Vec3 :=
  ⟨m.m00 * v.x + m.m01 * v.y + m.m02 * v.z,
   m.m10 * v.x + m.m11 * v.y + m.m12 * v.z,
   m.m20 * v.x + m.m21 * v.y + m.m22 * v.z⟩

/-- The identity 3x3 matrix. -/
def Mat3.id : Mat3 := ⟨1, 0, 0, 0, 1, 0, 0, 0, 1⟩

/-- The cross-product (skew-symmetric) matrix of a 3-vector. -/
def crossMat (t : Vec3) : Mat3 :=
  ⟨0, -t.z, t.y, t.z, 0, -t.x, -t.y, t.x, 0⟩

/-- A calibrated camera (theia::Camera), reduced to what the fundamental
matrix builder reads: a pinhole calibration matrix determined by focal
length and principal point, an orientation, and a position. -/
structure Camera where
  focal : ℚ
  px : ℚ
  py : ℚ
  orientation : Mat3
  center : Vec3
deriving DecidableEq

/-- The inverse of the pinhole calibration matrix
[[f, 0, px], [0, f, py], [0, 0, 1]] of a camera. -/
def calibInv (c : Camera) : Mat3 :=
  ⟨1 / c.focal, 0, -c.px / c.focal,
   0, 1 / c.focal, -c.py / c.focal,
   0, 0, 1⟩

/-- Keypoints of one image (theia::KeypointsAndDescriptors).  The descriptor
array is index-aligned with the keypoints and is consumed only through the
external descriptor-distance primitive, so it is not materialised here; the
matcher below carries that primitive as a function of the two indices. -/
structure KeypointsAndDescriptors where
  keypoints : List Keypoint

/-- A match between feature indices of the two images together with its
descriptor distance (theia::IndexedFeatureMatch). -/
structure IndexedFeatureMatch where
  feature1_ind : ℕ
  feature2_ind : ℕ
  distance : ℚ
deriving DecidableEq

/-- GuidedEpipolarMatcher::Options from the header: the epipolar distance
threshold in pixels and the Lowes ratio. -/
structure Options where
  guided_matching_max_distance_pixels : ℚ
  lowes_ratio : ℚ
deriving DecidableEq

/-- The default option values given in the header. -/
def defaultOptions : Options := ⟨2, 8 / 10⟩

/-- Modelled from the spec: the implementation of the fundamental matrix
builder (section 4.1) is not in the repository.  F is the essential matrix
of the relative pose conjugated by the inverse calibration matrices; the
builder signals failure (none) when the two camera centers coincide, since
no epipolar constraint exists for a zero baseline. -/
def ComputeFundamentalMatrix (camera1 camera2 : Camera) : Option Mat3 :=
  if camera1.center = camera2.center then none
  else
    let relR := camera2.orientation.mul camera1.orientation.transpose
    let t := camera2.orientation.mulVec (camera1.center.sub camera2.center)
    let e := (crossMat t).mul relR
    some (((calibInv camera2).transpose.mul e).mul (calibInv camera1))

/-- The epipolar line in image 2 induced by a keypoint of image 1: the
coefficient vector F * (x, y, 1). -/
def EpipolarLine (f : Mat3) (p : Keypoint) : Vec3 :=
  f.mulVec ⟨p.x, p.y, 1⟩

/-- The point p lies within perpendicular pixel distance t of the line with
coefficients (l.x, l.y, l.z), stated without square roots by comparing
squares: (a x + b y + c)^2 <= t^2 (a^2 + b^2). -/
def withinDist (l : Vec3) (p : Keypoint) (t : ℚ) : Prop :=
  (l.x * p.x + l.y * p.y + l.z) ^ 2 ≤ t ^ 2 * (l.x ^ 2 + l.y ^ 2)

instance (l : Vec3) (p : Keypoint) (t : ℚ) : Decidable (withinDist l p t) := by
  unfold withinDist; infer_instance

/-- The keypoint position of a feature index ((0, 0) out of range). -/
def keypointOf (kps : List Keypoint) (i : ℕ) : Keypoint :=
  kps.getD i ⟨0, 0⟩

/-- The uniform image grid of the header (GuidedEpipolarMatcher::ImageGrid):
a cell size, a cell offset, and buckets of feature indices keyed by cell.
Cells are kept as an association list keyed by the integer cell coordinate
pair, playing the role of the unordered_map keyed by cell center. -/
structure ImageGrid where
  cell_size : ℚ
  cell_offset_x : ℚ
  cell_offset_y : ℚ
  cells : List ((ℤ × ℤ) × List ℕ)
deriving DecidableEq

/-- Modelled from the spec: the cell discretisation (section 4.2) is the
floored division of the offset-adjusted coordinate by the cell size. -/
def ImageGrid.cellOf (g : ImageGrid) (x y : ℚ) : ℤ × ℤ :=
  (Int.floor ((x - g.cell_offset_x) / g.cell_size),
   Int.floor ((y - g.cell_offset_y) / g.cell_size))

/-- Append an index to the bucket of key k in an association list of cells,
creating the bucket if absent. -/
def addToCells : List ((ℤ × ℤ) × List ℕ) → ℤ × ℤ → ℕ → List ((ℤ × ℤ) × List ℕ)
  | [], k, idx => [(k, [idx])]
  | (k', l) :: rest, k, idx =>
      if k' = k then (k', l ++ [idx]) :: rest else (k', l) :: addToCells rest k idx

/-- The bucket of key k in an association list of cells ([] if absent). -/
def lookupCells : List ((ℤ × ℤ) × List ℕ) → ℤ × ℤ → List ℕ
  | [], _ => []
  | (k', l) :: rest, k => if k' = k then l else lookupCells rest k

/-- Modelled from the spec: ImageGrid::AddFeature (section 4.2) buckets the
feature index into the cell containing (x, y); its body is not in the
repository. -/
def ImageGrid.AddFeature (g : ImageGrid) (feature_index : ℕ) (x y : ℚ) : ImageGrid :=
  ⟨g.cell_size, g.cell_offset_x, g.cell_offset_y,
   addToCells g.cells (g.cellOf x y) feature_index⟩

/-- Modelled from the spec: ImageGrid::GetClosestGridCenter (section 4.2)
identifies the cell nearest (x, y) using the same discretisation as
AddFeature; its body is not in the repository.  The integer cell coordinate
pair stands for the Vector2i cell center of the header. -/
def ImageGrid.GetClosestGridCenter (g : ImageGrid) (x y : ℚ) : ℤ × ℤ :=
  g.cellOf x y

/-- Modelled from the spec: ImageGrid::GetFeaturesFromCell (section 4.2)
returns the possibly empty bucket of the given cell; its body is not in the
repository. -/
def ImageGrid.GetFeaturesFromCell (g : ImageGrid) (cell_center : ℤ × ℤ) : List ℕ :=
  lookupCells g.cells cell_center

/-- The pixel position of the center of a grid cell. -/
def ImageGrid.centerPos (g : ImageGrid) (c : ℤ × ℤ) : Keypoint :=
  ⟨g.cell_offset_x + ((c.1 : ℚ) + 1 / 2) * g.cell_size,
   g.cell_offset_y + ((c.2 : ℚ) + 1 / 2) * g.cell_size⟩

/-- Squared euclidean distance between two pixel positions. -/
def sqDist (p q : Keypoint) : ℚ :=
  (p.x - q.x) ^ 2 + (p.y - q.y) ^ 2

/-- Modelled from the spec: FindClosestCellAndKeypoints (header line 127)
has no body in the repository; among all image grids it selects the grid
cell whose center is nearest the query point and returns the feature
indices bucketed in that cell (sections 4.2 and 4.5). -/
def FindClosestCellAndKeypoints (grids : List ImageGrid) (p : Keypoint) : List ℕ :=
  match grids with
  | [] => []
  | g :: rest =>
      let best := rest.foldl
        (fun (best : ImageGrid × (ℤ × ℤ)) h =>
          let c := h.GetClosestGridCenter p.x p.y
          if sqDist (h.centerPos c) p < sqDist (best.1.centerPos best.2) p
          then (h, c) else best)
        (g, g.GetClosestGridCenter p.x p.y)
      best.1.GetFeaturesFromCell best.2

/-- An epiline group of the header: features of image 1 sharing one
representative epipolar line.  The model additionally records the group key
produced by the clustering quantisation and the representative line (that of
the first member); the clipped endpoints are recomputed where consumed. -/
structure EpilineGroup where
  key : Bool × ℤ × ℤ
  line : Vec3
  features : List ℕ
deriving DecidableEq

/-- Modelled from the spec: the clustering key of an epipolar line
(section 4.3).  The line coefficients are normalised to a canonical scale
(leading nonzero coefficient 1) and the remaining parameters are quantised
by flooring at the clustering tolerance, so lines whose normalised
parameters agree to within the tolerance share a key; a degenerate line
(both direction coefficients zero) has no key. -/
def groupKey (τ : ℚ) (l : Vec3) : Option (Bool × ℤ × ℤ) :=
  if l.x ≠ 0 then some (true, Int.floor (l.y / l.x / τ), Int.floor (l.z / l.x / τ))
  else if l.y ≠ 0 then some (false, Int.floor (l.z / l.y / τ), 0)
  else none

/-- Modelled from the spec: the clustering tolerance of section 4.3, bounded
by the distance threshold; the model takes it equal to that threshold. -/
def clusterTolerance (o : Options) : ℚ :=
  o.guided_matching_max_distance_pixels

/-- Modelled from the spec: the grid cell size of section 4.2 is derived
from the distance threshold; the model takes twice that threshold. -/
def cellSize (o : Options) : ℚ :=
  2 * o.guided_matching_max_distance_pixels

/-- Insert a feature into the group with the given key, appending a new
group when no group has that key yet. -/
def addToGroups : List EpilineGroup → Bool × ℤ × ℤ → Vec3 → ℕ → List EpilineGroup
  | [], k, l, q => [⟨k, l, [q]⟩]
  | g :: rest, k, l, q =>
      if g.key = k then ⟨g.key, g.line, g.features ++ [q]⟩ :: rest
      else g :: addToGroups rest k l q

/-- The epipolar line induced by the image-1 feature of the given index. -/
def lineOfFeature (f : Mat3) (kps1 : List Keypoint) (q : ℕ) : Vec3 :=
  EpipolarLine f (keypointOf kps1 q)

/-- One step of the grouping fold: the feature joins the group of its line
key; a degenerate line is skipped. -/
def groupStep (τ : ℚ) (f : Mat3) (kps1 : List Keypoint) (gs : List EpilineGroup)
    (q : ℕ) : List EpilineGroup :=
  match groupKey τ (lineOfFeature f kps1 q) with
  | none => gs
  | some k => addToGroups gs k (lineOfFeature f kps1 q) q

/-- Modelled from the spec: GuidedEpipolarMatcher::GroupEpipolarLines
(section 4.3) has no body in the repository.  Unmatched image-1 features are
folded in index order; each feature joins the group of its line key, and a
feature opening a new group contributes its own line as the representative
line of that group. -/
def GroupEpipolarLines (τ : ℚ) (f : Mat3) (unmatched1 : List ℕ)
    (kps1 : List Keypoint) : List EpilineGroup :=
  unmatched1.foldl (groupStep τ f kps1) []

/-- Modelled from the spec: FindEpipolarLineIntersection (section 4.4) has
no body in the repository.  The line a x + b y + c = 0 is clipped against
the four edges of the bounding box; boundary intersection points lying
within the edge extents are kept, duplicates (corners) removed. -/
def FindEpipolarLineIntersection (l : Vec3) (top_left bottom_right : Keypoint) :
    List Keypoint :=
  let onLeft : List Keypoint :=
    if l.y ≠ 0 then
      let y := -(l.z + l.x * top_left.x) / l.y
      if top_left.y ≤ y ∧ y ≤ bottom_right.y then [⟨top_left.x, y⟩] else []
    else []
  let onRight : List Keypoint :=
    if l.y ≠ 0 then
      let y := -(l.z + l.x * bottom_right.x) / l.y
      if top_left.y ≤ y ∧ y ≤ bottom_right.y then [⟨bottom_right.x, y⟩] else []
    else []
  let onTop : List Keypoint :=
    if l.x ≠ 0 then
      let x := -(l.z + l.y * top_left.y) / l.x
      if top_left.x ≤ x ∧ x ≤ bottom_right.x then [⟨x, top_left.y⟩] else []
    else []
  let onBottom : List Keypoint :=
    if l.x ≠ 0 then
      let x := -(l.z + l.y * bottom_right.y) / l.x
      if top_left.x ≤ x ∧ x ≤ bottom_right.x then [⟨x, bottom_right.y⟩] else []
    else []
  (onLeft ++ onRight ++ onTop ++ onBottom).foldl
    (fun acc p => if p ∈ acc then acc else acc ++ [p]) []

/-- Sample points along the segment from p to q at steps bounded by the
given step size.  The step count uses the L1 length of the segment, which
dominates its euclidean length, so consecutive samples are at most one step
apart while all arithmetic stays rational. -/
def segmentSamples (p q : Keypoint) (step : ℚ) : List Keypoint :=
  let dx := q.x - p.x
  let dy := q.y - p.y
  let n : ℕ := (Int.ceil ((|dx| + |dy|) / step)).toNat
  if n = 0 then [p]
  else (List.range (n + 1)).map
    (fun k => ⟨p.x + (k : ℚ) / (n : ℚ) * dx, p.y + (k : ℚ) / (n : ℚ) * dy⟩)

/-- Append an index to a list unless already present (deduplicated union). -/
def insertUnique (acc : List ℕ) (i : ℕ) : List ℕ :=
  if i ∈ acc then acc else acc ++ [i]

/-- Modelled from the spec: FindFeaturesNearEpipolarLines (section 4.5) has
no body in the repository.  The representative line of the group is clipped
to the bounding box of the unmatched image-2 keypoints; when a clipped
segment exists, the segment is walked at the grid cell size, the bucket of
the closest cell is collected at each sample, and the union is
deduplicated.  A group whose line misses the box yields no candidates. -/
def FindFeaturesNearEpipolarLines (step : ℚ) (grids : List ImageGrid)
    (top_left bottom_right : Keypoint) (epiline_group : EpilineGroup) : List ℕ :=
  match FindEpipolarLineIntersection epiline_group.line top_left bottom_right with
  | p :: q :: _ =>
      (segmentSamples p q step).foldl
        (fun acc s => (FindClosestCellAndKeypoints grids s).foldl insertUnique acc) []
  | _ => []

/-- One step of the top-2 selection: the state holds the best and second
best (distance, index) pairs found so far; earlier candidates win ties. -/
def knnStep (st : Option (ℚ × ℕ) × Option (ℚ × ℕ)) (c : ℚ × ℕ) :
    Option (ℚ × ℕ) × Option (ℚ × ℕ) :=
  match st with
  | (none, _) => (some c, none)
  | (some b1, none) => if c.1 < b1.1 then (some c, some b1) else (some b1, some c)
  | (some b1, some b2) =>
      if c.1 < b1.1 then (some c, some b1)
      else if c.1 < b2.1 then (some b1, some c) else (some b1, some b2)

/-- Modelled from the spec: FindKNearestNeighbors (section 4.6, header lines
134-136) has no body in the repository.  This is its per-query form: given
the descriptor distance of the query to each candidate, it retains the two
smallest distances with their image-2 indices by partial selection; the
second slot is absent when fewer than two candidates exist.  The C++
function maps this selection over the query list. -/
def FindKNearestNeighbors (d : ℕ → ℚ) (candidate_feature_indices : List ℕ) :
    Option (ℚ × ℕ) × Option (ℚ × ℕ) :=
  (candidate_feature_indices.map (fun c => (d c, c))).foldl knnStep (none, none)

/-- The matcher of the header: the option copy, the two cameras, the two
feature sets, and the external descriptor-distance primitive (distance
between the descriptors of feature i of image 1 and feature j of image 2),
which the source reads from the descriptor arrays through an opaque
distance function. -/
structure GuidedEpipolarMatcher where
  options : Options
  camera1 : Camera
  camera2 : Camera
  features1 : KeypointsAndDescriptors
  features2 : KeypointsAndDescriptors
  ddist : ℕ → ℕ → ℚ

/-- The mutable private state of the header (lines 142-144): the bounding
box corners, the image grids, and the matched-feature index sets, next to
the immutable construction data. -/
structure MatcherState where
  matcher : GuidedEpipolarMatcher
  top_left : Keypoint
  bottom_right : Keypoint
  image_grids : List ImageGrid
  matched_features1 : List ℕ
  matched_features2 : List ℕ

/-- The state of a freshly constructed matcher. -/
def mkState (m : GuidedEpipolarMatcher) : MatcherState :=
  ⟨m, ⟨0, 0⟩, ⟨0, 0⟩, [], [], []⟩

/-- Feature index of image 1 of a match. -/
def f1ind (mm : IndexedFeatureMatch) : ℕ := mm.feature1_ind

/-- Feature index of image 2 of a match. -/
def f2ind (mm : IndexedFeatureMatch) : ℕ := mm.feature2_ind

/-- Indices of image-1 features not consumed by the given match list. -/
def unmatchedFeatures1 (m : GuidedEpipolarMatcher) (ms : List IndexedFeatureMatch) :
    List ℕ :=
  (List.range m.features1.keypoints.length).filter (fun i => i ∉ ms.map f1ind)

/-- Indices of image-2 features not consumed by the given match list. -/
def unmatchedFeatures2 (m : GuidedEpipolarMatcher) (ms : List IndexedFeatureMatch) :
    List ℕ :=
  (List.range m.features2.keypoints.length).filter (fun i => i ∉ ms.map f2ind)

/-- Modelled from the spec: the bounding box tracker (section 2) has no body
in the repository; the corners are the componentwise minima and maxima of
the given keypoints (degenerate corners (0,0) for no keypoints). -/
def boundingBox : List Keypoint → Keypoint × Keypoint
  | [] => (⟨0, 0⟩, ⟨0, 0⟩)
  | p :: ps =>
      ps.foldl
        (fun acc q =>
          (⟨min acc.1.x q.x, min acc.1.y q.y⟩, ⟨max acc.2.x q.x, max acc.2.y q.y⟩))
        (p, p)

/-- Modelled from the spec: the grid build of section 4.2; one grid is
created with the cell offset anchored at the bounding box corner, and every
unmatched image-2 feature is added at its keypoint position. -/
def buildGrid (size : ℚ) (top_left : Keypoint) (unmatched2 : List ℕ)
    (kps2 : List Keypoint) : ImageGrid :=
  unmatched2.foldl
    (fun g i => g.AddFeature i (keypointOf kps2 i).x (keypointOf kps2 i).y)
    ⟨size, top_left.x, top_left.y, []⟩

/-- Modelled from the spec: the body of GuidedEpipolarMatcher::Initialize
(header line 109) is not in the repository.  Following section 4.7 step 2,
every derived structure is rebuilt from this calls inputs: the matched
feature sets from the given matches, the bounding box over the unmatched
image-2 keypoints, the image grid over those keypoints, and the fundamental
matrix.  The first component is none exactly when the pass cannot run:
degenerate fundamental matrix, or zero unmatched features in either image
(sections 4.7 step 2, 6 and 7 of the spec). -/
def initDerived (m : GuidedEpipolarMatcher) (ms : List IndexedFeatureMatch) :
    Option Mat3 × MatcherState :=
  let u1 := unmatchedFeatures1 m ms
  let u2 := unmatchedFeatures2 m ms
  let bb := boundingBox (u2.map (keypointOf m.features2.keypoints))
  let grid := buildGrid (cellSize m.options) bb.1 u2 m.features2.keypoints
  let fOpt : Option Mat3 :=
    match ComputeFundamentalMatrix m.camera1 m.camera2 with
    | none => none
    | some f => if u1 = [] ∨ u2 = [] then none else some f
  (fOpt, ⟨m, bb.1, bb.2, [grid], ms.map f1ind, ms.map f2ind⟩)

/-- Modelled from the spec: GuidedEpipolarMatcher::Initialize; it reads only
the construction data of the state and rebuilds all derived state. -/
def Initialize (s : MatcherState) (ms : List IndexedFeatureMatch) :
    Option Mat3 × MatcherState :=
  initDerived s.matcher ms

/-- Modelled from the spec: the per-feature acceptance step of section 4.7
steps 5 and 6.  The two nearest candidates are taken; the match is accepted
only if a second candidate exists, the Lowes ratio test passes, the matched
image-2 keypoint lies within the distance threshold of the groups
representative epipolar line, and neither feature index is already in a
matched set; on acceptance the match is appended and both indices join the
matched sets. -/
def processFeature (o : Options) (dd : ℕ → ℕ → ℚ) (kps2 : List Keypoint)
    (repLine : Vec3) (cands : List ℕ) (st : MatcherState × List IndexedFeatureMatch)
    (q : ℕ) : MatcherState × List IndexedFeatureMatch :=
  match FindKNearestNeighbors (dd q) cands with
  | (some (d1, i1), some (d2, _)) =>
      if d1 ≤ o.lowes_ratio * d2
          ∧ withinDist repLine (keypointOf kps2 i1) o.guided_matching_max_distance_pixels
          ∧ q ∉ st.1.matched_features1 ∧ i1 ∉ st.1.matched_features2 then
        (⟨st.1.matcher, st.1.top_left, st.1.bottom_right, st.1.image_grids,
          st.1.matched_features1 ++ [q], st.1.matched_features2 ++ [i1]⟩,
         st.2 ++ [⟨q, i1, d1⟩])
      else st
  | _ => st

/-- Modelled from the spec: the per-group step of section 4.7 step 4; the
shared candidate list of the group is retrieved once and every member
feature is ranked against it. -/
def processGroup (o : Options) (dd : ℕ → ℕ → ℚ) (kps2 : List Keypoint)
    (grids : List ImageGrid) (top_left bottom_right : Keypoint)
    (st : MatcherState × List IndexedFeatureMatch) (g : EpilineGroup) :
    MatcherState × List IndexedFeatureMatch :=
  let cands := FindFeaturesNearEpipolarLines (cellSize o) grids top_left bottom_right g
  g.features.foldl (processFeature o dd kps2 g.line cands) st

/-- Modelled from the spec: the body of GuidedEpipolarMatcher::GetMatches
(header line 75) is not in the repository; this follows the orchestrator of
section 4.7 with the state threaded explicitly.  On failure of Initialize
the match list is returned untouched with false; otherwise the unmatched
image-1 features are grouped and every group is processed, and true is
returned with the extended match list. -/
def GetMatchesS (s : MatcherState) (ms : List IndexedFeatureMatch) :
    Bool × List IndexedFeatureMatch × MatcherState :=
  match Initialize s ms with
  | (none, s1) => (false, ms, s1)
  | (some f, s1) =>
      let m := s.matcher
      let groups := GroupEpipolarLines (clusterTolerance m.options) f
        (unmatchedFeatures1 m ms) m.features1.keypoints
      let res := groups.foldl
        (processGroup m.options m.ddist m.features2.keypoints s1.image_grids
          s1.top_left s1.bottom_right)
        (s1, ms)
      (true, res.2, res.1)

/-- GetMatches on a freshly constructed matcher: the boolean result and the
match list (the C++ entry point mutates the vector in place and returns the
boolean). -/
def GetMatches (m : GuidedEpipolarMatcher) (ms : List IndexedFeatureMatch) :
    Bool × List IndexedFeatureMatch :=
  let r := GetMatchesS (mkState m) ms
  (r.1, r.2.1)

/-- The epiline groups a run of GetMatches builds from its inputs ([] when
initialisation fails). -/
def groupsOf (m : GuidedEpipolarMatcher) (ms : List IndexedFeatureMatch) :
    List EpilineGroup :=
  match (initDerived m ms).1 with
  | none => []
  | some f =>
      GroupEpipolarLines (clusterTolerance m.options) f
        (unmatchedFeatures1 m ms) m.features1.keypoints

/-- The candidate list a run of GetMatches presents to the ranker for a
group: the grid retrieval along the clipped representative line, over the
derived state built by initialisation. -/
def groupCandidates (m : GuidedEpipolarMatcher) (ms : List IndexedFeatureMatch)
    (g : EpilineGroup) : List ℕ :=
  FindFeaturesNearEpipolarLines (cellSize m.options) (initDerived m ms).2.image_grids
    (initDerived m ms).2.top_left (initDerived m ms).2.bottom_right g

/-- The candidate list presented to the nearest-neighbor ranker for a given
image-1 feature: that of the group containing it (none when the feature is
in no group). -/
def presentedCandidates (m : GuidedEpipolarMatcher) (ms : List IndexedFeatureMatch)
    (q : ℕ) : Option (List ℕ) :=
  ((groupsOf m ms).find? (fun g => decide (q ∈ g.features))).map (groupCandidates m ms)

/-- Two epipolar lines coincide as geometric lines: their coefficient
vectors are proportional (all 2x2 minors vanish) and neither is degenerate. -/
def linesCoincide (l l' : Vec3) : Prop :=
  l.x * l'.y = l'.x * l.y ∧ l.x * l'.z = l'.x * l.z ∧ l.y * l'.z = l'.y * l.z
    ∧ ¬(l.x = 0 ∧ l.y = 0) ∧ ¬(l'.x = 0 ∧ l'.y = 0)

instance (l l' : Vec3) : Decidable (linesCoincide l l') := by
  unfold linesCoincide; infer_instance

/-- Provenance of an accepted guided match: it came from a group of the
run, its query feature is a member of that group, the two nearest
descriptor distances over the groups shared candidate list are its stored
distance d1 and some d2 with d1 <= lowes_ratio * d2, at least two
candidates existed, and the matched image-2 keypoint is within the distance
threshold of the groups representative epipolar line. -/
def matchProvenance (m : GuidedEpipolarMatcher) (ms : List IndexedFeatureMatch)
    (mm : IndexedFeatureMatch) : Prop :=
  ∃ g, g ∈ groupsOf m ms ∧ mm.feature1_ind ∈ g.features ∧
    ∃ d2 i2,
      FindKNearestNeighbors (m.ddist mm.feature1_ind) (groupCandidates m ms g)
        = (some (mm.distance, mm.feature2_ind), some (d2, i2))
      ∧ mm.distance ≤ m.options.lowes_ratio * d2
      ∧ 2 ≤ (groupCandidates m ms g).length
      ∧ withinDist g.line (keypointOf m.features2.keypoints mm.feature2_ind)
          m.options.guided_matching_max_distance_pixels

/-- The matcher state after a sequence of GetMatches calls. -/
def runCalls (s : MatcherState) (calls : List (List IndexedFeatureMatch)) :
    MatcherState :=
  calls.foldl (fun s cs => (GetMatchesS s cs).2.2) s

/-- Every member of every group carries the key of its group under the
given line-key assignment. -/
def groupsWellKeyed (kf : ℕ → Option (Bool × ℤ × ℤ)) (gs : List EpilineGroup) : Prop :=
  ∀ g ∈ gs, ∀ x ∈ g.features, kf x = some g.key

/-- The invariant threaded through the group-processing fold of a GetMatches
run: the match list is the input followed by a tail of accepted guided
matches; all consumed image-1 and image-2 indices (seed and accepted) are in
the matched sets; the tail reuses no index; and every accepted match carries
its provenance. -/
def runInvariant (m : GuidedEpipolarMatcher) (ms : List IndexedFeatureMatch)
    (st : MatcherState × List IndexedFeatureMatch) : Prop :=
  ∃ t, st.2 = ms ++ t
    ∧ (∀ x ∈ ms.map f1ind, x ∈ st.1.matched_features1)
    ∧ (∀ x ∈ t.map f1ind, x ∈ st.1.matched_features1)
    ∧ (∀ x ∈ ms.map f2ind, x ∈ st.1.matched_features2)
    ∧ (∀ x ∈ t.map f2ind, x ∈ st.1.matched_features2)
    ∧ (t.map f1ind).Nodup ∧ (t.map f2ind).Nodup
    ∧ ∀ mm ∈ t, mm.feature1_ind ∉ ms.map f1ind ∧ mm.feature2_ind ∉ ms.map f2ind
        ∧ matchProvenance m ms mm

/-! Concrete inputs used by witnesses and counterexamples. -/

/-- A camera at the origin with identity calibration and orientation. -/
def exCam1 : Camera := ⟨1, 0, 0, Mat3.id, ⟨0, 0, 0⟩⟩

/-- The same camera displaced along the x axis; the induced epipolar line
of an image-1 point (x, y) is the horizontal line at height y. -/
def exCam2 : Camera := ⟨1, 0, 0, Mat3.id, ⟨-1, 0, 0⟩⟩

/-- Two image-1 features whose epipolar lines are the horizontal lines at
heights 10 and 41/5; the two lines differ but share a clustering bucket. -/
def exFeatures1 : KeypointsAndDescriptors := ⟨[⟨0, 10⟩, ⟨0, 41 / 5⟩]⟩

/-- Two image-2 features near those lines: the first 2 pixels above the
representative line, the second on the other side. -/
def exFeatures2 : KeypointsAndDescriptors := ⟨[⟨0, 12⟩, ⟨6, 9⟩]⟩

/-- Descriptor distances making query 0 fail the ratio test (tied best and
second best) and query 1 pass it decisively with candidate 0. -/
def exDdist : ℕ → ℕ → ℚ :=
  fun i j => if i = 0 then 1 else if j = 0 then 1 else 10

/-- The matcher of the grouped-lines scenario. -/
def exMatcher : GuidedEpipolarMatcher :=
  ⟨defaultOptions, exCam1, exCam2, exFeatures1, exFeatures2, exDdist⟩

/-- A matcher whose two image-1 features sit at distinct positions but on
identical epipolar lines (same height). -/
def exC7Matcher : GuidedEpipolarMatcher :=
  ⟨defaultOptions, exCam1, exCam2, ⟨[⟨0, 10⟩, ⟨3, 10⟩]⟩, exFeatures2, exDdist⟩

/-- A matcher for the image-2-exhausted scenario. -/
def exC6Matcher : GuidedEpipolarMatcher :=
  ⟨defaultOptions, exCam1, exCam2, ⟨[⟨0, 0⟩, ⟨1, 1⟩]⟩, ⟨[⟨5, 5⟩]⟩, fun _ _ => 1⟩

/-- A seed list consuming the only image-2 feature of exC6Matcher. -/
def exC6Seed : List IndexedFeatureMatch := [⟨0, 0, 1⟩]

/-- A matcher whose two cameras share their center (zero baseline). -/
def exDegMatcher : GuidedEpipolarMatcher :=
  ⟨defaultOptions, exCam1, exCam1, exFeatures1, exFeatures2, exDdist⟩

/-- A small concrete grid configuration. -/
def exGrid : ImageGrid := ⟨4, 0, 0, []⟩

/-- A grid after a sequence of AddFeature calls. -/
def applyAdds (g : ImageGrid) (adds : List (ℕ × ℚ × ℚ)) : ImageGrid :=
  adds.foldl (fun g a => g.AddFeature a.1 a.2.1 a.2.2) g

/-- The fundamental matrix of the camera pair (exCam1, exCam2). -/
def exF : Mat3 := ⟨0, 0, 0, 0, 0, -1, 0, 1, 0⟩

/-- A matcher state with stale derived fields but the matcher of exMatcher. -/
def exStaleState : MatcherState :=
  ⟨exMatcher, ⟨5, 5⟩, ⟨9, 9⟩, [exGrid], [3], [4]⟩

/-! Lemmas about the image grid. -/

lemma mem_lookupCells_addToCells_self (cs : List ((ℤ × ℤ) × List ℕ)) (k : ℤ × ℤ)
    (idx : ℕ) : idx ∈ lookupCells (addToCells cs k idx) k := by
  induction cs with
  | nil => simp [addToCells, lookupCells]
  | cons c rest ih =>
      obtain ⟨k', l⟩ := c
      by_cases h : k' = k
      · simp [addToCells, lookupCells, h]
      · simpa [addToCells, lookupCells, h] using ih

lemma mem_lookupCells_addToCells (cs : List ((ℤ × ℤ) × List ℕ)) (k k' : ℤ × ℤ)
    (idx j : ℕ) (h : j ∈ lookupCells cs k') :
    j ∈ lookupCells (addToCells cs k idx) k' := by
  induction cs with
  | nil => simp [lookupCells] at h
  | cons c rest ih =>
      obtain ⟨k0, l⟩ := c
      by_cases h0 : k0 = k
      · by_cases h1 : k0 = k'
        · simp only [lookupCells, if_pos h1] at h
          simp only [addToCells, if_pos h0, lookupCells, if_pos h1]
          exact List.mem_append_left _ h
        · simp only [lookupCells, if_neg h1] at h
          simpa only [addToCells, if_pos h0, lookupCells, if_neg h1] using h
      · by_cases h1 : k0 = k'
        · simp only [lookupCells, if_pos h1] at h
          simpa only [addToCells, if_neg h0, lookupCells, if_pos h1] using h
        · simp only [lookupCells, if_neg h1] at h
          simpa only [addToCells, if_neg h0, lookupCells, if_neg h1] using ih h

lemma GetClosestGridCenter_applyAdds (adds : List (ℕ × ℚ × ℚ)) :
    ∀ (g : ImageGrid) (x y : ℚ),
      (applyAdds g adds).GetClosestGridCenter x y = g.GetClosestGridCenter x y := by
  induction adds with
  | nil => intro g x y; rfl
  | cons a rest ih =>
      intro g x y
      show (applyAdds (g.AddFeature a.1 a.2.1 a.2.2) rest).GetClosestGridCenter x y = _
      rw [ih]
      rfl

lemma mem_GetFeaturesFromCell_applyAdds (adds : List (ℕ × ℚ × ℚ)) :
    ∀ (g : ImageGrid) (k : ℤ × ℤ) (j : ℕ), j ∈ g.GetFeaturesFromCell k →
      j ∈ (applyAdds g adds).GetFeaturesFromCell k := by
  induction adds with
  | nil => intro g k j h; exact h
  | cons a rest ih =>
      intro g k j h
      exact ih _ _ _ (mem_lookupCells_addToCells g.cells _ k a.1 j h)

lemma mem_applyAdds_roundtrip (adds : List (ℕ × ℚ × ℚ)) :
    ∀ (g : ImageGrid) (idx : ℕ) (x y : ℚ), (idx, x, y) ∈ adds →
      idx ∈ (applyAdds g adds).GetFeaturesFromCell
        ((applyAdds g adds).GetClosestGridCenter x y) := by
  induction adds with
  | nil => intro g idx x y h; simp at h
  | cons a rest ih =>
      intro g idx x y h
      rcases List.mem_cons.mp h with h1 | h1
      · have ha : a = (idx, x, y) := h1.symm
        subst ha
        show idx ∈ (applyAdds (g.AddFeature idx x y) rest).GetFeaturesFromCell
          ((applyAdds (g.AddFeature idx x y) rest).GetClosestGridCenter x y)
        rw [GetClosestGridCenter_applyAdds]
        exact mem_GetFeaturesFromCell_applyAdds rest _ _ _
          (mem_lookupCells_addToCells_self g.cells (g.cellOf x y) idx)
      · exact ih (g.AddFeature a.1 a.2.1 a.2.2) idx x y h1

/-- C8: GetClosestGridCenter is a pure function of the query point and the
grid configuration (feature insertions do not change it), it uses the same
cell discretisation as AddFeature, and so every feature added at (x, y) is
found in the bucket of the cell returned for (x, y). -/
theorem spec_c8_grid_roundtrip (g : ImageGrid) (adds : List (ℕ × ℚ × ℚ)) (idx : ℕ)
    (x y : ℚ) (h : (idx, x, y) ∈ adds) :
    idx ∈ (applyAdds g adds).GetFeaturesFromCell
        ((applyAdds g adds).GetClosestGridCenter x y)
      ∧ (applyAdds g adds).GetClosestGridCenter x y = g.GetClosestGridCenter x y :=
  ⟨mem_applyAdds_roundtrip adds g idx x y h, GetClosestGridCenter_applyAdds adds g x y⟩

theorem spec_c8_witness :
    ((7, (3 : ℚ) / 2, (5 : ℚ) / 2) ∈ [((7 : ℕ), (3 : ℚ) / 2, (5 : ℚ) / 2)])
    ∧ (7 ∈ (applyAdds exGrid [(7, 3 / 2, 5 / 2)]).GetFeaturesFromCell
          ((applyAdds exGrid [(7, 3 / 2, 5 / 2)]).GetClosestGridCenter (3 / 2) (5 / 2))
        ∧ (applyAdds exGrid [(7, 3 / 2, 5 / 2)]).GetClosestGridCenter (3 / 2) (5 / 2)
          = exGrid.GetClosestGridCenter (3 / 2) (5 / 2)) :=
  ⟨List.mem_singleton.mpr rfl,
   spec_c8_grid_roundtrip exGrid [(7, 3 / 2, 5 / 2)] 7 (3 / 2) (5 / 2)
     (List.mem_singleton.mpr rfl)⟩

/-! Structural lemmas about initialisation and the state. -/

lemma mkState_matcher (m : GuidedEpipolarMatcher) : (mkState m).matcher = m := rfl

lemma initDerived_snd_matcher (m : GuidedEpipolarMatcher)
    (ms : List IndexedFeatureMatch) : (initDerived m ms).2.matcher = m := rfl

lemma initDerived_snd_m1 (m : GuidedEpipolarMatcher) (ms : List IndexedFeatureMatch) :
    (initDerived m ms).2.matched_features1 = ms.map f1ind := rfl

lemma initDerived_snd_m2 (m : GuidedEpipolarMatcher) (ms : List IndexedFeatureMatch) :
    (initDerived m ms).2.matched_features2 = ms.map f2ind := rfl

lemma initDerived_fst_none_iff (m : GuidedEpipolarMatcher)
    (ms : List IndexedFeatureMatch) :
    (initDerived m ms).1 = none ↔
      ComputeFundamentalMatrix m.camera1 m.camera2 = none
        ∨ unmatchedFeatures1 m ms = [] ∨ unmatchedFeatures2 m ms = [] := by
  unfold initDerived
  cases hc : ComputeFundamentalMatrix m.camera1 m.camera2 with
  | none => simp [hc]
  | some f =>
      by_cases he : unmatchedFeatures1 m ms = [] ∨ unmatchedFeatures2 m ms = []
      · simp [hc, he]
      · simp [hc, he]

lemma getMatches_fail (m : GuidedEpipolarMatcher) (ms : List IndexedFeatureMatch)
    (h : (initDerived m ms).1 = none) : GetMatches m ms = (false, ms) := by
  unfold GetMatches
  simp only [GetMatchesS, Initialize, mkState_matcher]
  rcases hI : initDerived m ms with ⟨fo, st⟩
  have : fo = none := by rw [hI] at h; exact h
  subst this
  rfl

lemma processFeature_matcher (o : Options) (dd : ℕ → ℕ → ℚ) (kps2 : List Keypoint)
    (repLine : Vec3) (cands : List ℕ) (st : MatcherState × List IndexedFeatureMatch)
    (q : ℕ) : (processFeature o dd kps2 repLine cands st q).1.matcher = st.1.matcher := by
  unfold processFeature
  split
  · split
    · rfl
    · rfl
  · rfl

lemma processGroup_matcher (o : Options) (dd : ℕ → ℕ → ℚ) (kps2 : List Keypoint)
    (grids : List ImageGrid) (tl br : Keypoint)
    (st : MatcherState × List IndexedFeatureMatch) (g : EpilineGroup) :
    (processGroup o dd kps2 grids tl br st g).1.matcher = st.1.matcher := by
  unfold processGroup
  refine List.foldlRecOn g.features _ st
    (motive := fun r => r.1.matcher = st.1.matcher) rfl ?_
  intro b hb a ha
  exact (processFeature_matcher _ _ _ _ _ b a).trans hb

lemma getMatchesS_matcher (s : MatcherState) (ms : List IndexedFeatureMatch) :
    (GetMatchesS s ms).2.2.matcher = s.matcher := by
  simp only [GetMatchesS, Initialize]
  rcases hI : initDerived s.matcher ms with ⟨fo, st⟩
  have hst : st.matcher = s.matcher := by
    have : st = (initDerived s.matcher ms).2 := by rw [hI]
    rw [this, initDerived_snd_matcher]
  cases fo with
  | none => exact hst
  | some f =>
      show (List.foldl _ (st, ms) _).1.matcher = s.matcher
      have hfold := List.foldlRecOn
        (GroupEpipolarLines (clusterTolerance s.matcher.options) f
          (unmatchedFeatures1 s.matcher ms) s.matcher.features1.keypoints)
        (processGroup s.matcher.options s.matcher.ddist s.matcher.features2.keypoints
          st.image_grids st.top_left st.bottom_right)
        (st, ms) (motive := fun r => r.1.matcher = st.matcher) rfl
        (fun b hb a ha => (processGroup_matcher _ _ _ _ _ _ b a).trans hb)
      exact hfold.trans hst

lemma getMatchesS_congr (s1 s2 : MatcherState) (ms : List IndexedFeatureMatch)
    (h : s1.matcher = s2.matcher) : GetMatchesS s1 ms = GetMatchesS s2 ms := by
  simp only [GetMatchesS, Initialize, h]

/-- C9: GetMatches rebuilds all derived state (grid, bounding box, matched
sets, fundamental matrix) from the inputs of the call: its result is
independent of the derived fields of the incoming state, and a second call
on the state left by any call behaves exactly as a first call. -/
theorem spec_c9_fresh_per_call :
    (∀ (s1 s2 : MatcherState) (ms : List IndexedFeatureMatch),
        s1.matcher = s2.matcher → GetMatchesS s1 ms = GetMatchesS s2 ms)
    ∧ ∀ (s : MatcherState) (ms msNext : List IndexedFeatureMatch),
        GetMatchesS (GetMatchesS s ms).2.2 msNext = GetMatchesS s msNext :=
  ⟨fun s1 s2 ms h => getMatchesS_congr s1 s2 ms h,
   fun s ms msNext => getMatchesS_congr _ _ msNext (getMatchesS_matcher s ms)⟩

theorem spec_c9_witness :
    (mkState exMatcher).matcher = exStaleState.matcher
    ∧ GetMatchesS (mkState exMatcher) [] = GetMatchesS exStaleState [] :=
  ⟨rfl, spec_c9_fresh_per_call.1 (mkState exMatcher) exStaleState [] rfl⟩

/-- C10: the matcher stores its Options by value at construction and no
call ever modifies the stored construction data, so every GetMatches call
uses exactly the constructor-time thresholds. -/
theorem spec_c10_options_fixed (s : MatcherState)
    (calls : List (List IndexedFeatureMatch)) :
    (runCalls s calls).matcher = s.matcher
    ∧ (runCalls s calls).matcher.options = s.matcher.options := by
  induction calls generalizing s with
  | nil => exact ⟨rfl, rfl⟩
  | cons c rest ih =>
      have h1 : runCalls s (c :: rest) = runCalls ((GetMatchesS s c).2.2) rest := rfl
      rcases ih ((GetMatchesS s c).2.2) with ⟨ha, _⟩
      rw [h1, ha, getMatchesS_matcher]
      exact ⟨rfl, rfl⟩

/-- C4: GetMatches returns false and leaves the match list unmodified when
the fundamental matrix is degenerate or either image has no unmatched
feature, and the fundamental matrix builder is degenerate whenever the two
camera centers coincide. -/
theorem spec_c4_early_failure :
    (∀ (m : GuidedEpipolarMatcher) (ms : List IndexedFeatureMatch),
        ComputeFundamentalMatrix m.camera1 m.camera2 = none
          ∨ unmatchedFeatures1 m ms = [] ∨ unmatchedFeatures2 m ms = [] →
        GetMatches m ms = (false, ms))
    ∧ ∀ c1 c2 : Camera, c1.center = c2.center →
        ComputeFundamentalMatrix c1 c2 = none := by
  constructor
  · intro m ms h
    exact getMatches_fail m ms ((initDerived_fst_none_iff m ms).mpr h)
  · intro c1 c2 h
    unfold ComputeFundamentalMatrix
    rw [if_pos h]

theorem spec_c4_witness :
    ComputeFundamentalMatrix exDegMatcher.camera1 exDegMatcher.camera2 = none
    ∧ GetMatches exDegMatcher [] = (false, []) :=
  ⟨spec_c4_early_failure.2 exCam1 exCam1 rfl,
   spec_c4_early_failure.1 exDegMatcher []
     (Or.inl (spec_c4_early_failure.2 exCam1 exCam1 rfl))⟩

/-- C6 counterexample: with all image-2 features consumed by the seed
matches (and everything else well formed), GetMatches returns false, not
true as the claim states. -/
theorem spec_c6_counterexample :
    unmatchedFeatures2 exC6Matcher exC6Seed = []
    ∧ (GetMatches exC6Matcher exC6Seed).1 = false := by
  with_unfolding_all decide

/-- C6 (amended): when image 2 has zero unmatched features, GetMatches
returns false and appends zero new matches (the match list is returned
unchanged). -/
theorem spec_c6_empty_image2 (m : GuidedEpipolarMatcher)
    (ms : List IndexedFeatureMatch) (h : unmatchedFeatures2 m ms = []) :
    GetMatches m ms = (false, ms) :=
  getMatches_fail m ms ((initDerived_fst_none_iff m ms).mpr (Or.inr (Or.inr h)))

theorem spec_c6_witness :
    unmatchedFeatures2 exC6Matcher exC6Seed = []
    ∧ GetMatches exC6Matcher exC6Seed = (false, exC6Seed) := by
  have h : unmatchedFeatures2 exC6Matcher exC6Seed = [] := by
    with_unfolding_all decide
  exact ⟨h, spec_c6_empty_image2 exC6Matcher exC6Seed h⟩

/-! Lemmas about epipolar line grouping. -/

lemma groupKey_some (τ : ℚ) (l : Vec3) (h : ¬(l.x = 0 ∧ l.y = 0)) :
    ∃ k, groupKey τ l = some k := by
  unfold groupKey
  by_cases hx : l.x = 0
  · have hy : l.y ≠ 0 := fun hy => h ⟨hx, hy⟩
    rw [if_neg (fun hc => hc hx), if_pos hy]
    exact ⟨_, rfl⟩
  · rw [if_pos hx]
    exact ⟨_, rfl⟩

lemma groupKey_coincide (τ : ℚ) (l l' : Vec3) (h : linesCoincide l l') :
    groupKey τ l = groupKey τ l' := by
  obtain ⟨m1, m2, m3, hnd, hnd'⟩ := h
  unfold groupKey
  by_cases hx : l.x = 0
  · have hy : l.y ≠ 0 := fun hy => hnd ⟨hx, hy⟩
    have hx' : l'.x = 0 := by
      have h0 : l'.x * l.y = 0 := by rw [← m1, hx, zero_mul]
      rcases mul_eq_zero.mp h0 with h0 | h0
      · exact h0
      · exact absurd h0 hy
    have hy' : l'.y ≠ 0 := fun hy' => hnd' ⟨hx', hy'⟩
    have hz : l.z / l.y = l'.z / l'.y := by
      rw [div_eq_div_iff hy hy']
      calc l.z * l'.y = l'.y * l.z := mul_comm _ _
        _ = l.y * l'.z := m3.symm
        _ = l'.z * l.y := mul_comm _ _
    rw [if_neg (not_not_intro hx), if_pos hy, if_neg (not_not_intro hx'), if_pos hy', hz]
  · have hx' : l'.x ≠ 0 := by
      intro hc
      have h0 : l.x * l'.y = 0 := by rw [m1, hc, zero_mul]
      rcases mul_eq_zero.mp h0 with h0 | h0
      · exact hx h0
      · exact hnd' ⟨hc, h0⟩
    rw [if_pos hx, if_pos hx']
    have e1 : l.y / l.x = l'.y / l'.x := by
      rw [div_eq_div_iff hx hx']
      calc l.y * l'.x = l'.x * l.y := mul_comm _ _
        _ = l.x * l'.y := m1.symm
        _ = l'.y * l.x := mul_comm _ _
    have e2 : l.z / l.x = l'.z / l'.x := by
      rw [div_eq_div_iff hx hx']
      calc l.z * l'.x = l'.x * l.z := mul_comm _ _
        _ = l.x * l'.z := m2.symm
        _ = l'.z * l.x := mul_comm _ _
    rw [e1, e2]

lemma addToGroups_map_key (k : Bool × ℤ × ℤ) (l : Vec3) (q : ℕ) :
    ∀ gs : List EpilineGroup,
      (addToGroups gs k l q).map EpilineGroup.key
        = if k ∈ gs.map EpilineGroup.key then gs.map EpilineGroup.key
          else gs.map EpilineGroup.key ++ [k] := by
  intro gs
  induction gs with
  | nil => simp [addToGroups]
  | cons g0 rest ih =>
      by_cases h0 : g0.key = k
      · simp [addToGroups, h0]
      · have hne : ¬(k = g0.key) := fun hc => h0 hc.symm
        by_cases hm : k ∈ rest.map EpilineGroup.key
        · simp [addToGroups, h0, ih, hm, List.mem_cons, hne]
        · simp [addToGroups, h0, ih, hm, List.mem_cons, hne]

lemma addToGroups_nodup_keys (k : Bool × ℤ × ℤ) (l : Vec3) (q : ℕ)
    (gs : List EpilineGroup) (h : (gs.map EpilineGroup.key).Nodup) :
    ((addToGroups gs k l q).map EpilineGroup.key).Nodup := by
  rw [addToGroups_map_key]
  by_cases hm : k ∈ gs.map EpilineGroup.key
  · rw [if_pos hm]; exact h
  · rw [if_neg hm]
    exact h.append (List.nodup_singleton k)
      (fun a ha hb => hm ((List.mem_singleton.mp hb) ▸ ha))

lemma addToGroups_wellKeyed (kf : ℕ → Option (Bool × ℤ × ℤ)) (k : Bool × ℤ × ℤ)
    (l : Vec3) (q : ℕ) (hq : kf q = some k) :
    ∀ gs : List EpilineGroup, groupsWellKeyed kf gs →
      groupsWellKeyed kf (addToGroups gs k l q) := by
  intro gs
  induction gs with
  | nil =>
      intro _ g hg x hx
      simp only [addToGroups, List.mem_singleton] at hg
      subst hg
      simp only [List.mem_singleton] at hx
      subst hx
      exact hq
  | cons g0 rest ih =>
      intro h g hg x hx
      by_cases h0 : g0.key = k
      · simp only [addToGroups, if_pos h0] at hg
        rcases List.mem_cons.mp hg with rfl | hg'
        · rcases List.mem_append.mp hx with hx' | hx'
          · exact h g0 (List.mem_cons_self _ _) x hx'
          · rw [List.mem_singleton.mp hx']
            rw [hq, h0]
        · exact h g (List.mem_cons_of_mem _ hg') x hx
      · simp only [addToGroups, if_neg h0] at hg
        rcases List.mem_cons.mp hg with rfl | hg'
        · exact h g (List.mem_cons_self _ _) x hx
        · exact ih (fun g1 hg1 x1 hx1 => h g1 (List.mem_cons_of_mem _ hg1) x1 hx1)
            g hg' x hx

lemma addToGroups_self (gs : List EpilineGroup) (k : Bool × ℤ × ℤ) (l : Vec3)
    (q : ℕ) : ∃ g, g ∈ addToGroups gs k l q ∧ q ∈ g.features ∧ g.key = k := by
  induction gs with
  | nil => exact ⟨⟨k, l, [q]⟩, List.mem_singleton.mpr rfl, List.mem_singleton.mpr rfl, rfl⟩
  | cons g0 rest ih =>
      by_cases h0 : g0.key = k
      · refine ⟨⟨g0.key, g0.line, g0.features ++ [q]⟩, ?_, ?_, h0⟩
        · simp [addToGroups, h0]
        · exact List.mem_append_right _ (List.mem_singleton.mpr rfl)
      · obtain ⟨g, hg, hqf, hk⟩ := ih
        refine ⟨g, ?_, hqf, hk⟩
        simp only [addToGroups, if_neg h0]
        exact List.mem_cons_of_mem _ hg

lemma addToGroups_mono (k : Bool × ℤ × ℤ) (l : Vec3) (q x : ℕ) :
    ∀ gs : List EpilineGroup, (∃ g, g ∈ gs ∧ x ∈ g.features) →
      ∃ g, g ∈ addToGroups gs k l q ∧ x ∈ g.features := by
  intro gs
  induction gs with
  | nil => intro h; obtain ⟨g, hg, _⟩ := h; simp at hg
  | cons g0 rest ih =>
      intro h
      obtain ⟨g, hg, hx⟩ := h
      by_cases h0 : g0.key = k
      · rcases List.mem_cons.mp hg with rfl | hg'
        · refine ⟨⟨g.key, g.line, g.features ++ [q]⟩, ?_, List.mem_append_left _ hx⟩
          simp [addToGroups, h0]
        · refine ⟨g, ?_, hx⟩
          simp only [addToGroups, if_pos h0]
          exact List.mem_cons_of_mem _ hg'
      · rcases List.mem_cons.mp hg with rfl | hg'
        · refine ⟨g, ?_, hx⟩
          simp only [addToGroups, if_neg h0]
          exact List.mem_cons_self _ _
        · obtain ⟨g1, hg1, hx1⟩ := ih ⟨g, hg', hx⟩
          refine ⟨g1, ?_, hx1⟩
          simp only [addToGroups, if_neg h0]
          exact List.mem_cons_of_mem _ hg1

lemma groupEpipolarLines_wellKeyed (τ : ℚ) (f : Mat3) (kps1 : List Keypoint)
    (u1 : List ℕ) :
    groupsWellKeyed (fun x => groupKey τ (lineOfFeature f kps1 x))
        (GroupEpipolarLines τ f u1 kps1)
      ∧ ((GroupEpipolarLines τ f u1 kps1).map EpilineGroup.key).Nodup := by
  unfold GroupEpipolarLines
  refine List.foldlRecOn u1 (groupStep τ f kps1) []
    (motive := fun gs => groupsWellKeyed (fun x => groupKey τ (lineOfFeature f kps1 x)) gs
      ∧ (gs.map EpilineGroup.key).Nodup) ⟨?_, ?_⟩ ?_
  · intro g hg; simp at hg
  · simp
  · intro gs hgs q hq
    obtain ⟨h1, h2⟩ := hgs
    unfold groupStep
    cases hk : groupKey τ (lineOfFeature f kps1 q) with
    | none => exact ⟨h1, h2⟩
    | some k =>
        exact ⟨addToGroups_wellKeyed _ k _ q hk gs h1, addToGroups_nodup_keys k _ q gs h2⟩

lemma foldl_groupStep_mono (τ : ℚ) (f : Mat3) (kps1 : List Keypoint) :
    ∀ (u : List ℕ) (gs0 : List EpilineGroup) (x : ℕ),
      (∃ g, g ∈ gs0 ∧ x ∈ g.features) →
      ∃ g, g ∈ u.foldl (groupStep τ f kps1) gs0 ∧ x ∈ g.features := by
  intro u
  induction u with
  | nil => intro gs0 x h; exact h
  | cons a rest ih =>
      intro gs0 x h
      show ∃ g, g ∈ rest.foldl (groupStep τ f kps1) (groupStep τ f kps1 gs0 a)
        ∧ x ∈ g.features
      apply ih
      unfold groupStep
      cases hk : groupKey τ (lineOfFeature f kps1 a) with
      | none => exact h
      | some k => exact addToGroups_mono k _ a x gs0 h

lemma foldl_groupStep_self (τ : ℚ) (f : Mat3) (kps1 : List Keypoint) :
    ∀ (u : List ℕ) (gs0 : List EpilineGroup) (q : ℕ), q ∈ u →
      (∃ k, groupKey τ (lineOfFeature f kps1 q) = some k) →
      ∃ g, g ∈ u.foldl (groupStep τ f kps1) gs0 ∧ q ∈ g.features := by
  intro u
  induction u with
  | nil => intro gs0 q hq _; simp at hq
  | cons a rest ih =>
      intro gs0 q hq hk
      rcases List.mem_cons.mp hq with rfl | hq'
      · obtain ⟨k, hk'⟩ := hk
        show ∃ g, g ∈ rest.foldl (groupStep τ f kps1) (groupStep τ f kps1 gs0 q)
          ∧ q ∈ g.features
        apply foldl_groupStep_mono
        unfold groupStep
        rw [hk']
        obtain ⟨g, hg, hgq, _⟩ := addToGroups_self gs0 k (lineOfFeature f kps1 q) q
        exact ⟨g, hg, hgq⟩
      · exact ih (groupStep τ f kps1 gs0 a) q hq' hk

lemma find_group_eq (kf : ℕ → Option (Bool × ℤ × ℤ)) (q : ℕ) :
    ∀ gs : List EpilineGroup, groupsWellKeyed kf gs →
      (gs.map EpilineGroup.key).Nodup →
      ∀ g, g ∈ gs → q ∈ g.features →
      gs.find? (fun g1 => decide (q ∈ g1.features)) = some g := by
  intro gs
  induction gs with
  | nil => intro _ _ g hg _; simp at hg
  | cons g0 rest ih =>
      intro hW hN g hg hq
      by_cases h0 : q ∈ g0.features
      · rw [List.find?_cons_of_pos _ (by simpa using h0)]
        have e0 : kf q = some g0.key := hW g0 (List.mem_cons_self _ _) q h0
        have e1 : kf q = some g.key := hW g hg q hq
        have ekey : g0.key = g.key := Option.some.inj (e0.symm.trans e1)
        have : g0 = g :=
          List.inj_on_of_nodup_map hN (List.mem_cons_self _ _) hg ekey
        rw [this]
      · rw [List.find?_cons_of_neg _ (by simpa using h0)]
        have hg' : g ∈ rest := by
          rcases List.mem_cons.mp hg with rfl | h
          · exact absurd hq h0
          · exact h
        refine ih (fun g1 hg1 x hx => hW g1 (List.mem_cons_of_mem _ hg1) x hx) ?_ g hg' hq
        rw [List.map_cons] at hN
        exact hN.of_cons

/-- C7: two unmatched image-1 features whose exact epipolar lines under the
fundamental matrix coincide are always presented the same candidate list to
the nearest-neighbor ranker. -/
theorem spec_c7_grouping_consistency (m : GuidedEpipolarMatcher)
    (ms : List IndexedFeatureMatch) (q q' : ℕ) (f : Mat3)
    (hf : (initDerived m ms).1 = some f)
    (h1 : q ∈ unmatchedFeatures1 m ms) (h2 : q' ∈ unmatchedFeatures1 m ms)
    (hco : linesCoincide (lineOfFeature f m.features1.keypoints q)
      (lineOfFeature f m.features1.keypoints q')) :
    presentedCandidates m ms q = presentedCandidates m ms q' := by
  have hgs : groupsOf m ms
      = GroupEpipolarLines (clusterTolerance m.options) f
          (unmatchedFeatures1 m ms) m.features1.keypoints := by
    unfold groupsOf
    rw [hf]
  obtain ⟨hW, hN⟩ := groupEpipolarLines_wellKeyed (clusterTolerance m.options) f
    m.features1.keypoints (unmatchedFeatures1 m ms)
  have hkeys : groupKey (clusterTolerance m.options) (lineOfFeature f m.features1.keypoints q)
      = groupKey (clusterTolerance m.options) (lineOfFeature f m.features1.keypoints q') :=
    groupKey_coincide _ _ _ hco
  obtain ⟨k, hk⟩ := groupKey_some (clusterTolerance m.options)
    (lineOfFeature f m.features1.keypoints q) hco.2.2.2.1
  obtain ⟨g, hg, hgq⟩ := foldl_groupStep_self (clusterTolerance m.options) f
    m.features1.keypoints (unmatchedFeatures1 m ms) [] q h1 ⟨k, hk⟩
  obtain ⟨g', hg', hgq'⟩ := foldl_groupStep_self (clusterTolerance m.options) f
    m.features1.keypoints (unmatchedFeatures1 m ms) [] q' h2 ⟨k, hkeys ▸ hk⟩
  have e1 : groupKey (clusterTolerance m.options) (lineOfFeature f m.features1.keypoints q)
      = some g.key := hW g hg q hgq
  have e2 : groupKey (clusterTolerance m.options) (lineOfFeature f m.features1.keypoints q')
      = some g'.key := hW g' hg' q' hgq'
  have ekey : g.key = g'.key := Option.some.inj ((e1.symm.trans hkeys).trans e2)
  have heq : g = g' := List.inj_on_of_nodup_map hN hg hg' ekey
  subst heq
  unfold presentedCandidates
  rw [hgs]
  rw [find_group_eq _ q _ hW hN g hg hgq,
    find_group_eq _ q' _ hW hN g hg' hgq']

theorem spec_c7_witness :
    (initDerived exC7Matcher []).1 = some exF
    ∧ presentedCandidates exC7Matcher [] 0 = presentedCandidates exC7Matcher [] 1 := by
  have hf : (initDerived exC7Matcher []).1 = some exF := by with_unfolding_all decide
  have h1 : 0 ∈ unmatchedFeatures1 exC7Matcher [] := by with_unfolding_all decide
  have h2 : 1 ∈ unmatchedFeatures1 exC7Matcher [] := by with_unfolding_all decide
  have hco : linesCoincide (lineOfFeature exF exC7Matcher.features1.keypoints 0)
      (lineOfFeature exF exC7Matcher.features1.keypoints 1) := by
    with_unfolding_all decide
  exact ⟨hf, spec_c7_grouping_consistency exC7Matcher [] 0 1 exF hf h1 h2 hco⟩

/-! The run invariant of the orchestrator fold. -/

lemma knn_snd_some_length (d : ℕ → ℚ) (cands : List ℕ) (p : ℚ × ℕ)
    (h : (FindKNearestNeighbors d cands).2 = some p) : 2 ≤ cands.length := by
  match cands with
  | [] => simp [FindKNearestNeighbors] at h
  | [c] => simp [FindKNearestNeighbors, knnStep] at h
  | c1 :: c2 :: rest => simp only [List.length_cons]; omega

lemma processFeature_invariant (m : GuidedEpipolarMatcher)
    (ms : List IndexedFeatureMatch) (g : EpilineGroup) (hg : g ∈ groupsOf m ms)
    (st : MatcherState × List IndexedFeatureMatch) (hst : runInvariant m ms st)
    (q : ℕ) (hq : q ∈ g.features) :
    runInvariant m ms
      (processFeature m.options m.ddist m.features2.keypoints g.line
        (groupCandidates m ms g) st q) := by
  cases hknn : FindKNearestNeighbors (m.ddist q) (groupCandidates m ms g) with
  | mk o1 o2 =>
      cases o1 with
      | none =>
          have he : processFeature m.options m.ddist m.features2.keypoints g.line
              (groupCandidates m ms g) st q = st := by
            unfold processFeature; rw [hknn]
          rw [he]; exact hst
      | some p1 =>
          cases o2 with
          | none =>
              have he : processFeature m.options m.ddist m.features2.keypoints g.line
                  (groupCandidates m ms g) st q = st := by
                unfold processFeature; rw [hknn]
              rw [he]; exact hst
          | some p2 =>
              obtain ⟨d1, i1⟩ := p1
              obtain ⟨d2, i2⟩ := p2
              have he : processFeature m.options m.ddist m.features2.keypoints g.line
                  (groupCandidates m ms g) st q
                  = if d1 ≤ m.options.lowes_ratio * d2
                      ∧ withinDist g.line (keypointOf m.features2.keypoints i1)
                          m.options.guided_matching_max_distance_pixels
                      ∧ q ∉ st.1.matched_features1 ∧ i1 ∉ st.1.matched_features2 then
                      (⟨st.1.matcher, st.1.top_left, st.1.bottom_right, st.1.image_grids,
                        st.1.matched_features1 ++ [q], st.1.matched_features2 ++ [i1]⟩,
                       st.2 ++ [⟨q, i1, d1⟩])
                    else st := by
                unfold processFeature; rw [hknn]
              rw [he]
              by_cases hC : d1 ≤ m.options.lowes_ratio * d2
                  ∧ withinDist g.line (keypointOf m.features2.keypoints i1)
                      m.options.guided_matching_max_distance_pixels
                  ∧ q ∉ st.1.matched_features1 ∧ i1 ∉ st.1.matched_features2
              · rw [if_pos hC]
                obtain ⟨hratio, hdist, hq1, hq2⟩ := hC
                obtain ⟨t, ht, hm1s, hm1t, hm2s, hm2t, hnd1, hnd2, hprops⟩ := hst
                refine ⟨t ++ [⟨q, i1, d1⟩], ?_, ?_, ?_, ?_, ?_, ?_, ?_, ?_⟩
                · show st.2 ++ [(⟨q, i1, d1⟩ : IndexedFeatureMatch)] = _
                  rw [ht]
                  exact List.append_assoc ms t [⟨q, i1, d1⟩]
                · intro x hx
                  exact List.mem_append_left _ (hm1s x hx)
                · intro x hx
                  rw [List.map_append] at hx
                  rcases List.mem_append.mp hx with hx' | hx'
                  · exact List.mem_append_left _ (hm1t x hx')
                  · have hxq : x = q := List.mem_singleton.mp hx'
                    subst hxq
                    exact List.mem_append_right _ (List.mem_singleton.mpr rfl)
                · intro x hx
                  exact List.mem_append_left _ (hm2s x hx)
                · intro x hx
                  rw [List.map_append] at hx
                  rcases List.mem_append.mp hx with hx' | hx'
                  · exact List.mem_append_left _ (hm2t x hx')
                  · have hxi : x = i1 := List.mem_singleton.mp hx'
                    subst hxi
                    exact List.mem_append_right _ (List.mem_singleton.mpr rfl)
                · rw [List.map_append]
                  refine hnd1.append (List.nodup_singleton _) ?_
                  intro a ha hb
                  have hb' : a = q := List.mem_singleton.mp hb
                  subst hb'
                  exact hq1 (hm1t a ha)
                · rw [List.map_append]
                  refine hnd2.append (List.nodup_singleton _) ?_
                  intro a ha hb
                  have hb' : a = i1 := List.mem_singleton.mp hb
                  subst hb'
                  exact hq2 (hm2t a ha)
                · intro mm hmm
                  rcases List.mem_append.mp hmm with h' | h'
                  · exact hprops mm h'
                  · have hmm' : mm = ⟨q, i1, d1⟩ := List.mem_singleton.mp h'
                    subst hmm'
                    refine ⟨?_, ?_, ?_⟩
                    · intro hc; exact hq1 (hm1s q hc)
                    · intro hc; exact hq2 (hm2s i1 hc)
                    · exact ⟨g, hg, hq, d2, i2, hknn, hratio,
                        knn_snd_some_length _ _ _ (by rw [hknn]), hdist⟩
              · rw [if_neg hC]; exact hst

lemma processGroup_invariant (m : GuidedEpipolarMatcher)
    (ms : List IndexedFeatureMatch) (g : EpilineGroup) (hg : g ∈ groupsOf m ms)
    (st : MatcherState × List IndexedFeatureMatch) (hst : runInvariant m ms st) :
    runInvariant m ms
      (processGroup m.options m.ddist m.features2.keypoints
        (initDerived m ms).2.image_grids (initDerived m ms).2.top_left
        (initDerived m ms).2.bottom_right st g) := by
  unfold processGroup
  refine List.foldlRecOn g.features _ st (motive := runInvariant m ms) hst ?_
  intro b hb a ha
  exact processFeature_invariant m ms g hg b hb a ha

lemma getMatches_run (m : GuidedEpipolarMatcher) (ms : List IndexedFeatureMatch) :
    ∃ t, (GetMatches m ms).2 = ms ++ t
      ∧ (t.map f1ind).Nodup ∧ (t.map f2ind).Nodup
      ∧ ∀ mm ∈ t, mm.feature1_ind ∉ ms.map f1ind ∧ mm.feature2_ind ∉ ms.map f2ind
          ∧ matchProvenance m ms mm := by
  unfold GetMatches
  simp only [GetMatchesS, Initialize, mkState_matcher]
  rcases hI : initDerived m ms with ⟨fo, st1⟩
  have hst1 : st1 = (initDerived m ms).2 := by rw [hI]
  subst hst1
  cases fo with
  | none =>
      refine ⟨[], (List.append_nil ms).symm, List.nodup_nil, List.nodup_nil, ?_⟩
      intro mm hmm
      simp at hmm
  | some f =>
      have hgroups : groupsOf m ms
          = GroupEpipolarLines (clusterTolerance m.options) f
              (unmatchedFeatures1 m ms) m.features1.keypoints := by
        unfold groupsOf
        rw [hI]
      have hbase : runInvariant m ms ((initDerived m ms).2, ms) := by
        refine ⟨[], (List.append_nil ms).symm, ?_, ?_, ?_, ?_,
          List.nodup_nil, List.nodup_nil, ?_⟩
        · intro x hx
          rw [initDerived_snd_m1]
          exact hx
        · intro x hx; simp at hx
        · intro x hx
          rw [initDerived_snd_m2]
          exact hx
        · intro x hx; simp at hx
        · intro mm hmm; simp at hmm
      have hinv := List.foldlRecOn
        (GroupEpipolarLines (clusterTolerance m.options) f
          (unmatchedFeatures1 m ms) m.features1.keypoints)
        (processGroup m.options m.ddist m.features2.keypoints
          (initDerived m ms).2.image_grids (initDerived m ms).2.top_left
          (initDerived m ms).2.bottom_right)
        ((initDerived m ms).2, ms) (motive := runInvariant m ms) hbase
        (fun b hb a ha =>
          processGroup_invariant m ms a (by rw [hgroups]; exact ha) b hb)
      obtain ⟨t, ht, hm1s, hm1t, hm2s, hm2t, hnd1, hnd2, hprops⟩ := hinv
      exact ⟨t, ht, hnd1, hnd2, hprops⟩

/-- C5: the match list is append-only: every call returns the input list
with a (possibly empty) tail of new matches appended; pre-existing entries
are preserved in place. -/
theorem spec_c5_append_only (m : GuidedEpipolarMatcher)
    (ms : List IndexedFeatureMatch) :
    ∃ t, (GetMatches m ms).2 = ms ++ t := by
  obtain ⟨t, ht, _⟩ := getMatches_run m ms
  exact ⟨t, ht⟩

/-- C1: when the seed match list uses each feature index at most once, the
output list does so as well, on both images, and no newly appended match
reuses a feature consumed by a seed match. -/
theorem spec_c1_no_double_use (m : GuidedEpipolarMatcher)
    (ms : List IndexedFeatureMatch)
    (h1 : (ms.map f1ind).Nodup) (h2 : (ms.map f2ind).Nodup) :
    (((GetMatches m ms).2).map f1ind).Nodup
    ∧ (((GetMatches m ms).2).map f2ind).Nodup
    ∧ ∀ mm ∈ ((GetMatches m ms).2).drop ms.length,
        mm.feature1_ind ∉ ms.map f1ind ∧ mm.feature2_ind ∉ ms.map f2ind := by
  obtain ⟨t, ht, hnd1, hnd2, hmm⟩ := getMatches_run m ms
  rw [ht]
  refine ⟨?_, ?_, ?_⟩
  · rw [List.map_append]
    refine h1.append hnd1 ?_
    intro a ha hb
    obtain ⟨mm, hmmt, hma⟩ := List.mem_map.mp hb
    rw [← hma] at ha
    exact (hmm mm hmmt).1 ha
  · rw [List.map_append]
    refine h2.append hnd2 ?_
    intro a ha hb
    obtain ⟨mm, hmmt, hma⟩ := List.mem_map.mp hb
    rw [← hma] at ha
    exact (hmm mm hmmt).2.1 ha
  · rw [List.drop_left]
    intro mm hmmt
    exact ⟨(hmm mm hmmt).1, (hmm mm hmmt).2.1⟩

theorem spec_c1_witness :
    (([] : List IndexedFeatureMatch).map f1ind).Nodup
    ∧ ((((GetMatches exMatcher []).2).map f1ind).Nodup
      ∧ (((GetMatches exMatcher []).2).map f2ind).Nodup
      ∧ ∀ mm ∈ ((GetMatches exMatcher []).2).drop
            ([] : List IndexedFeatureMatch).length,
          mm.feature1_ind ∉ ([] : List IndexedFeatureMatch).map f1ind
          ∧ mm.feature2_ind ∉ ([] : List IndexedFeatureMatch).map f2ind) :=
  ⟨List.nodup_nil,
   spec_c1_no_double_use exMatcher [] List.nodup_nil List.nodup_nil⟩

/-- C2: every newly appended match passed the Lowes ratio test: over its
groups shared candidate list its query had a best and a second-best
candidate, the stored distance is the best distance, it is at most
lowes_ratio times the second distance, and at least two candidates
existed. -/
theorem spec_c2_ratio_law (m : GuidedEpipolarMatcher)
    (ms : List IndexedFeatureMatch) (mm : IndexedFeatureMatch)
    (h : mm ∈ ((GetMatches m ms).2).drop ms.length) :
    ∃ g, g ∈ groupsOf m ms ∧ mm.feature1_ind ∈ g.features
      ∧ ∃ d2 i2,
          FindKNearestNeighbors (m.ddist mm.feature1_ind) (groupCandidates m ms g)
            = (some (mm.distance, mm.feature2_ind), some (d2, i2))
          ∧ mm.distance ≤ m.options.lowes_ratio * d2
          ∧ 2 ≤ (groupCandidates m ms g).length := by
  obtain ⟨t, ht, _, _, hmm⟩ := getMatches_run m ms
  rw [ht, List.drop_left] at h
  obtain ⟨g, hg, hgf, d2, i2, hk, hr, hl, _⟩ := (hmm mm h).2.2
  exact ⟨g, hg, hgf, d2, i2, hk, hr, hl⟩

theorem spec_c2_witness :
    ((⟨1, 0, 1⟩ : IndexedFeatureMatch)
        ∈ ((GetMatches exMatcher []).2).drop ([] : List IndexedFeatureMatch).length)
    ∧ ∃ g, g ∈ groupsOf exMatcher []
      ∧ (⟨1, 0, 1⟩ : IndexedFeatureMatch).feature1_ind ∈ g.features
      ∧ ∃ d2 i2,
          FindKNearestNeighbors
              (exMatcher.ddist (⟨1, 0, 1⟩ : IndexedFeatureMatch).feature1_ind)
              (groupCandidates exMatcher [] g)
            = (some ((⟨1, 0, 1⟩ : IndexedFeatureMatch).distance,
                (⟨1, 0, 1⟩ : IndexedFeatureMatch).feature2_ind), some (d2, i2))
          ∧ (⟨1, 0, 1⟩ : IndexedFeatureMatch).distance
              ≤ exMatcher.options.lowes_ratio * d2
          ∧ 2 ≤ (groupCandidates exMatcher [] g).length := by
  have h : (⟨1, 0, 1⟩ : IndexedFeatureMatch)
      ∈ ((GetMatches exMatcher []).2).drop ([] : List IndexedFeatureMatch).length := by
    with_unfolding_all decide
  exact ⟨h, spec_c2_ratio_law exMatcher [] ⟨1, 0, 1⟩ h⟩

/-- C3 counterexample: the run on exMatcher appends the match (1, 0), yet
the matched image-2 keypoint lies farther than the threshold from the exact
epipolar line of image-1 feature 1 computed directly from the fundamental
matrix: the clustering merged two nearby lines and the distance re-check
uses only the representative line of the group. -/
theorem spec_c3_counterexample :
    (GetMatches exMatcher []).1 = true
    ∧ (GetMatches exMatcher []).2 = [⟨1, 0, 1⟩]
    ∧ ComputeFundamentalMatrix exMatcher.camera1 exMatcher.camera2 = some exF
    ∧ ¬ withinDist (EpipolarLine exF (keypointOf exMatcher.features1.keypoints 1))
        (keypointOf exMatcher.features2.keypoints 0)
        exMatcher.options.guided_matching_max_distance_pixels := by
  with_unfolding_all decide

/-- C3 (amended): every newly appended match lies within the distance
threshold of the representative epipolar line of its group (the line of the
first member), which is the re-check the orchestrator performs; the exact
per-feature line may differ from it within the clustering tolerance. -/
theorem spec_c3_group_line_distance (m : GuidedEpipolarMatcher)
    (ms : List IndexedFeatureMatch) (mm : IndexedFeatureMatch)
    (h : mm ∈ ((GetMatches m ms).2).drop ms.length) :
    ∃ g, g ∈ groupsOf m ms ∧ mm.feature1_ind ∈ g.features
      ∧ withinDist g.line (keypointOf m.features2.keypoints mm.feature2_ind)
          m.options.guided_matching_max_distance_pixels := by
  obtain ⟨t, ht, _, _, hmm⟩ := getMatches_run m ms
  rw [ht, List.drop_left] at h
  obtain ⟨g, hg, hgf, _, _, _, _, _, hd⟩ := (hmm mm h).2.2
  exact ⟨g, hg, hgf, hd⟩

theorem spec_c3_witness :
    ((⟨1, 0, 1⟩ : IndexedFeatureMatch)
        ∈ ((GetMatches exMatcher []).2).drop ([] : List IndexedFeatureMatch).length)
    ∧ ∃ g, g ∈ groupsOf exMatcher []
      ∧ (⟨1, 0, 1⟩ : IndexedFeatureMatch).feature1_ind ∈ g.features
      ∧ withinDist g.line
          (keypointOf exMatcher.features2.keypoints
            (⟨1, 0, 1⟩ : IndexedFeatureMatch).feature2_ind)
          exMatcher.options.guided_matching_max_distance_pixels := by
  have h : (⟨1, 0, 1⟩ : IndexedFeatureMatch)
      ∈ ((GetMatches exMatcher []).2).drop ([] : List IndexedFeatureMatch).length := by
    with_unfolding_all decide
  exact ⟨h, spec_c3_group_line_distance exMatcher [] ⟨1, 0, 1⟩ h⟩

end Theia
